import Mathlib

/-!
Shallow embedding of `torch/csrc/monitor/counters.h` (the windowed statistics
aggregator `Stat<T>` with its two windowing policies `IntervalStat` and
`FixedCountStat`), together with theorems settling the specification claims.

Modelling conventions:
* The numeric type `T` is instantiated at `int64_t`, modelled as `Int`;
  C++ `int64_t` division truncates toward zero, so `/` on window sums is
  modelled by `Int.tdiv`.  No claim concerns overflow, so wrap-around at
  2^63 is not modelled.
* `std::bitset<NUM_AGGREGATIONS>` is modelled as a `Nat` bitmask;
  `bitset::set b` is `||| (1 <<< b)` and `bitset::test b` is `Nat.testBit`.
* `std::unordered_map` results are modelled as association lists in the
  emplacement order of the source; claims about map contents are stated via
  `List.lookup` and lengths, which is insensitive to that order.
* The mutex serialises every public operation, so each locked method body is
  modelled as a pure state transformer on the `Stat` record.  `count()` and
  `get()` only read state under the lock, so they are modelled as pure reads.
* `logEvent` (the external sink) is modelled by returning the emitted event;
  a window close is one `logLocked` invocation, so the policies' `add` returns
  one `Option Event` per `logLocked` invocation (`none` when the close was
  suppressed because the closed window was empty).
* `std::chrono::steady_clock::now()` is an input: `IntervalStat` operations
  take the current time in milliseconds as an explicit argument; within one
  `add` call both policy checks read the same instant.
* The event `timestamp` field (wall-clock capture time) and the external
  registry binding (`registerStat` / `unregisterStat`, declared but external
  to this header) are not modelled.
-/

namespace TorchMonitor

/-- The `Aggregation` enum of `counters.h`: the possible aggregations for
Stats, stored as bit positions in a bitset of size `NUM_AGGREGATIONS = 7`. -/
inductive Aggregation where
  | NONE
  | VALUE
  | MEAN
  | COUNT
  | SUM
  | MAX
  | MIN
deriving DecidableEq, Repr

/-- The numeric value of each enumerator (`NONE = 0`, ..., `MAX = 5`,
`MIN = 6`), i.e. the bit position used by `merge` and `bitset::test`. -/
def Aggregation.toBit : Aggregation → Nat
  | .NONE => 0
  | .VALUE => 1
  | .MEAN => 2
  | .COUNT => 3
  | .SUM => 4
  | .MAX => 5
  | .MIN => 6

/-- `merge` of `counters.h`: folds an initializer list of aggregations into a
bitset by setting the bit of each element. -/
def merge (list : List Aggregation) : Nat :=
  list.foldl (fun a b => a ||| (1 <<< b.toBit)) 0

/-- `bitset::test` on the merged aggregation bitset. -/
def testAgg (bits : Nat) (b : Aggregation) : Bool :=
  bits.testBit b.toBit

/-- The `Stat<T>::Values` struct: running state of one window.
All fields zero-initialised. -/
structure Values where
  value : Int := 0
  sum : Int := 0
  min : Int := 0
  max : Int := 0
  count : Int := 0
deriving DecidableEq, Repr

/-- The state of a `Stat<int64_t>`: its name, the immutable aggregation
bitset, the current (open) window and the previous (last closed) window. -/
structure Stat where
  name_ : String
  aggregations_ : Nat
  current_ : Values := {}
  prev_ : Values := {}
deriving DecidableEq, Repr

/-- The `Event` struct of `events.h` as used by `logLocked` (the wall-clock
`timestamp` field is not modelled). -/
structure Event where
  type : String
  message : String
  metadata : List (String × Int)
deriving DecidableEq, Repr

/-- Modelled from the spec: `aggregationName` is declared in `counters.h`
(line 40) but defined outside the provided sources.  The spec states that
metadata keys are `"<statName>.<aggregationDisplayName>"` and its end-to-end
example uses the keys `"latency.sum"`, `"latency.count"`, `"latency.mean"`,
so the display name of each kind is its lower-case enumerator name. -/
def aggregationName : Aggregation → String
  | .NONE => "none"
  | .VALUE => "value"
  | .MEAN => "mean"
  | .COUNT => "count"
  | .SUM => "sum"
  | .MAX => "max"
  | .MIN => "min"

/-- `Stat::getLocked`: finalize the previous window into a map with one entry
per selected aggregation.  MEAN is `0` when the window count is `0`, and
`sum / count` (C++ `int64_t` truncating division, `Int.tdiv`) otherwise. -/
def Stat.getLocked (s : Stat) : List (Aggregation × Int) :=
  (if testAgg s.aggregations_ .VALUE then [(Aggregation.VALUE, s.prev_.value)] else []) ++
  (if testAgg s.aggregations_ .MEAN then
    [(Aggregation.MEAN,
      if s.prev_.count = 0 then 0 else Int.tdiv s.prev_.sum s.prev_.count)]
   else []) ++
  (if testAgg s.aggregations_ .COUNT then [(Aggregation.COUNT, s.prev_.count)] else []) ++
  (if testAgg s.aggregations_ .SUM then [(Aggregation.SUM, s.prev_.sum)] else []) ++
  (if testAgg s.aggregations_ .MAX then [(Aggregation.MAX, s.prev_.max)] else []) ++
  (if testAgg s.aggregations_ .MIN then [(Aggregation.MIN, s.prev_.min)] else [])

/-- `Stat::get`: returns `getLocked` under the lock. -/
def Stat.get (s : Stat) : List (Aggregation × Int) :=
  s.getLocked

/-- `Stat::count`: returns the current window's running count under the
lock (a pure read; it mutates no window state). -/
def Stat.count (s : Stat) : Int :=
  s.current_.count

/-- `Stat::logLocked`: close the current window.  The current window becomes
the previous one and a fresh zeroed window is opened; if the closed window
had no data (`count == 0`) no event is emitted, otherwise one event is built
with the fixed type string, the stat name as message, and one metadata entry
`"<name>.<aggregationName kind>"` per finalized aggregate. -/
def Stat.logLocked (s : Stat) : Stat × Option Event :=
  let s' : Stat := { s with prev_ := s.current_, current_ := {} }
  if s'.prev_.count = 0 then
    (s', none)
  else
    let stats := s'.getLocked
    (s', some
      { type := "torch.monitor.Stat"
        message := s.name_
        metadata := stats.map fun kv => (s.name_ ++ "." ++ aggregationName kv.1, kv.2) })

/-- The fold section of `Stat::add` (lines 104–122): update `value`, `sum`,
`max`, `min` according to the selected aggregations, then increment `count`.
The extrema take the incoming value unconditionally when `count == 0`. -/
def Stat.fold (s : Stat) (v : Int) : Stat :=
  let c := s.current_
  let c := if testAgg s.aggregations_ .VALUE then { c with value := v } else c
  let c := if testAgg s.aggregations_ .MEAN || testAgg s.aggregations_ .SUM then
      { c with sum := c.sum + v } else c
  let c := if testAgg s.aggregations_ .MAX then
      (if c.max < v ∨ c.count = 0 then { c with max := v } else c) else c
  let c := if testAgg s.aggregations_ .MIN then
      (if c.min > v ∨ c.count = 0 then { c with min := v } else c) else c
  { s with current_ := { c with count := c.count + 1 } }

/-- `Stat::~Stat`: on destruction, `logLocked` runs once under the lock
(flushing any unlogged data), after which the stat is unregistered from the
external registry.  The result is the event emitted by that final close. -/
def Stat.destructor (s : Stat) : Option Event :=
  (s.logLocked).2

/-- `FixedCountStat<int64_t>`: a `Stat` that closes the window every
`windowSize_` add calls. -/
structure FixedCountStat extends Stat where
  windowSize_ : Int
deriving DecidableEq, Repr

/-- `FixedCountStat::maybeLogLocked`: close the window iff the current
window's count has reached `windowSize_`.  The returned list has one entry
per `logLocked` invocation (its emitted event, if any). -/
def FixedCountStat.maybeLogLocked (s : FixedCountStat) :
    FixedCountStat × List (Option Event) :=
  if s.windowSize_ ≤ s.toStat.current_.count then
    let r := s.toStat.logLocked
    ({ s with toStat := r.1 }, [r.2])
  else
    (s, [])

/-- `Stat::add` as inherited by `FixedCountStat`: policy check, fold the
observation, policy check again.  Returns one list entry per window close. -/
def FixedCountStat.add (s : FixedCountStat) (v : Int) :
    FixedCountStat × List (Option Event) :=
  let r1 := s.maybeLogLocked
  let s2 : FixedCountStat := { r1.1 with toStat := r1.1.toStat.fold v }
  let r2 := s2.maybeLogLocked
  (r2.1, r1.2 ++ r2.2)

/-- A sequence of `add` calls on a `FixedCountStat`, collecting every window
close in order. -/
def FixedCountStat.addAll (s : FixedCountStat) (vs : List Int) :
    FixedCountStat × List (Option Event) :=
  match vs with
  | [] => (s, [])
  | v :: rest =>
    let r1 := s.add v
    let r2 := r1.1.addAll rest
    (r2.1, r1.2 ++ r2.2)

/-- `IntervalStat<int64_t>`: a `Stat` that closes the window when the
wall-clock bucket id changes.  `windowSize_` is in milliseconds and
`windowId_` starts at `0`. -/
structure IntervalStat extends Stat where
  windowSize_ : Nat
  windowId_ : Nat := 0
deriving DecidableEq, Repr

/-- `IntervalStat::currentWindowId`: monotonic time (milliseconds, passed in
explicitly) divided by the window size. -/
def IntervalStat.currentWindowId (s : IntervalStat) (now : Nat) : Nat :=
  now / s.windowSize_

/-- `IntervalStat::maybeLogLocked`: close the window iff the stored bucket id
differs from the current one, updating the stored id as part of closing. -/
def IntervalStat.maybeLogLocked (s : IntervalStat) (now : Nat) :
    IntervalStat × List (Option Event) :=
  let windowId := s.currentWindowId now
  if s.windowId_ ≠ windowId then
    let r := s.toStat.logLocked
    ({ s with toStat := r.1, windowId_ := windowId }, [r.2])
  else
    (s, [])

/-- `Stat::add` as inherited by `IntervalStat`: policy check, fold, policy
check again; both checks within one call observe the same instant `now`. -/
def IntervalStat.add (s : IntervalStat) (v : Int) (now : Nat) :
    IntervalStat × List (Option Event) :=
  let r1 := s.maybeLogLocked now
  let s2 : IntervalStat := { r1.1 with toStat := r1.1.toStat.fold v }
  let r2 := s2.maybeLogLocked now
  (r2.1, r1.2 ++ r2.2)

/-- The six meaningful aggregation kinds, in the order `getLocked` tests
them. -/
def aggKinds : List Aggregation :=
  [.VALUE, .MEAN, .COUNT, .SUM, .MAX, .MIN]

end TorchMonitor
namespace TorchMonitor

lemma fold_count (s : Stat) (v : Int) :
    (s.fold v).current_.count = s.current_.count + 1 := by
  unfold Stat.fold
  dsimp only
  split_ifs <;> rfl

lemma fold_meta (s : Stat) (v : Int) :
    (s.fold v).name_ = s.name_ ∧ (s.fold v).aggregations_ = s.aggregations_ ∧
      (s.fold v).prev_ = s.prev_ := by
  unfold Stat.fold
  dsimp only
  exact ⟨rfl, rfl, rfl⟩

lemma logLocked_fst (s : Stat) :
    (s.logLocked).1 = { s with prev_ := s.current_, current_ := {} } := by
  unfold Stat.logLocked
  dsimp only
  split_ifs <;> rfl

lemma logLocked_snd_of_zero (s : Stat) (h : s.current_.count = 0) :
    (s.logLocked).2 = none := by
  unfold Stat.logLocked
  simp [h]

lemma logLocked_snd_isSome (s : Stat) (h : s.current_.count ≠ 0) :
    ((s.logLocked).2).isSome = true := by
  unfold Stat.logLocked
  simp [h]

/-- Claim C4: for every value `v` of any sign or magnitude folded as the
first observation of a window (current `count == 0`) on a Stat selecting MAX
and MIN, after that single fold the window's `min` and `max` both equal `v`:
the first observation unconditionally seeds the extrema instead of being
compared against the reset (zero) values. -/
theorem C4_first_observation_seeds_extrema (s : Stat) (v : Int)
    (hmax : testAgg s.aggregations_ .MAX = true)
    (hmin : testAgg s.aggregations_ .MIN = true)
    (h0 : s.current_.count = 0) :
    (s.fold v).current_.max = v ∧ (s.fold v).current_.min = v := by
  unfold Stat.fold
  dsimp only
  simp only [hmax, hmin, if_true]
  split_ifs <;> simp_all

/-- Claim C6: a window close (including the single close performed at Stat
destruction, before the registry unregistration) emits an event if and only
if the closed window's count is greater than 0; closing an empty window
emits no event at all.  The hypothesis `0 ≤ count` holds in every reachable
state since `add` only increments the count. -/
theorem C6_close_emits_iff_nonempty (s : Stat) (h : 0 ≤ s.current_.count) :
    ((s.destructor).isSome ↔ 0 < s.current_.count) ∧
      (((s.logLocked).2).isSome ↔ 0 < s.current_.count) := by
  unfold Stat.destructor Stat.logLocked
  dsimp only
  split_ifs with hz <;> constructor <;> constructor <;> intro hh <;> simp_all <;> omega

/-- Claim C3: for every finalized (previous) window, if the window's count is
0 the MEAN aggregation reports exactly 0 (the division branch is never
taken); if the count is positive, MEAN equals `sum / count` in the Stat's
numeric type, i.e. truncating `int64_t` division (`Int.tdiv`). -/
theorem C3_mean_finalization (s : Stat)
    (h : testAgg s.aggregations_ .MEAN = true) :
    (s.prev_.count = 0 → (s.getLocked).lookup .MEAN = some 0) ∧
      (0 < s.prev_.count →
        (s.getLocked).lookup .MEAN = some (Int.tdiv s.prev_.sum s.prev_.count)) := by
  have key : (s.getLocked).lookup .MEAN
      = some (if s.prev_.count = 0 then 0 else Int.tdiv s.prev_.sum s.prev_.count) := by
    unfold Stat.getLocked
    by_cases hV : testAgg s.aggregations_ .VALUE <;>
      simp [hV, h, List.lookup,
        show (Aggregation.MEAN == Aggregation.VALUE) = false from rfl]
  refine ⟨fun hc => ?_, fun hc => ?_⟩
  · rw [key]
    simp [hc]
  · rw [key]
    rw [if_neg (by omega)]

end TorchMonitor
namespace TorchMonitor

lemma getLocked_of_prev_default (s : Stat) (h : s.prev_ = ({} : Values)) :
    s.getLocked =
      aggKinds.filterMap
        (fun a => if testAgg s.aggregations_ a then some (a, 0) else none) := by
  unfold Stat.getLocked aggKinds
  cases hV : testAgg s.aggregations_ .VALUE <;>
    cases hM : testAgg s.aggregations_ .MEAN <;>
    cases hC : testAgg s.aggregations_ .COUNT <;>
    cases hS : testAgg s.aggregations_ .SUM <;>
    cases hMx : testAgg s.aggregations_ .MAX <;>
    cases hMn : testAgg s.aggregations_ .MIN <;>
    simp [h, hV, hM, hC, hS, hMx, hMn]

/-- Claim C2, counterexample: the claim says a freshly constructed Stat with
a non-empty aggregation set returns an *empty* mapping from `get()`, but
`getLocked` emplaces one entry per selected aggregation regardless of
whether any window has closed: a fresh Stat selecting SUM returns the
non-empty mapping `[(SUM, 0)]`. -/
theorem C2_counterexample :
    ¬ (Stat.get { name_ := "s", aggregations_ := merge [.SUM] } =
        ([] : List (Aggregation × Int))) := by
  decide

/-- Claim C2 as amended: for every freshly constructed Stat (current and
previous windows zero-initialised), `get()` returns a mapping with exactly
one entry per selected aggregation kind, each with value 0 — not an empty
mapping. -/
theorem C2_fresh_get (nm : String) (bits : Nat) :
    Stat.get { name_ := nm, aggregations_ := bits } =
      aggKinds.filterMap (fun a => if testAgg bits a then some (a, 0) else none) :=
  getLocked_of_prev_default _ rfl

/-- Claim C10: closing a window with `count == 0` (which emits no event)
still replaces the previous finalized snapshot with the empty window and
resets the current window; after such an empty close, `get()` returns the
zero value for every selected aggregation kind, not the values of the last
non-empty closed window.  The hypothesis `current_ = {}` characterises a
count-0 window in every reachable state, since `add` increments the count
whenever it writes any field. -/
theorem C10_empty_close (s : Stat) (h : s.current_ = ({} : Values)) :
    (s.logLocked).2 = none ∧
      (s.logLocked).1.prev_ = s.current_ ∧
      (s.logLocked).1.current_ = ({} : Values) ∧
      (s.logLocked).1.get =
        aggKinds.filterMap
          (fun a => if testAgg s.aggregations_ a then some (a, 0) else none) := by
  have h0 : s.current_.count = 0 := by rw [h]
  refine ⟨logLocked_snd_of_zero s h0, ?_, ?_, ?_⟩
  · rw [logLocked_fst]
  · rw [logLocked_fst]
  · have hp : (s.logLocked).1.prev_ = ({} : Values) := by rw [logLocked_fst, ← h]
    have ha : (s.logLocked).1.aggregations_ = s.aggregations_ := by rw [logLocked_fst]
    rw [Stat.get, getLocked_of_prev_default _ hp, ha]

end TorchMonitor
namespace TorchMonitor

lemma fc_addAll_nil (s : FixedCountStat) : s.addAll [] = (s, []) := rfl

lemma fc_addAll_cons (s : FixedCountStat) (v : Int) (vs : List Int) :
    s.addAll (v :: vs) =
      (((s.add v).1.addAll vs).1, (s.add v).2 ++ ((s.add v).1.addAll vs).2) := rfl

lemma fc_maybe_of_lt (s : FixedCountStat)
    (h : s.toStat.current_.count < s.windowSize_) :
    s.maybeLogLocked = (s, []) := by
  unfold FixedCountStat.maybeLogLocked
  rw [if_neg (by omega)]

lemma fc_maybe_of_ge (s : FixedCountStat)
    (h : s.windowSize_ ≤ s.toStat.current_.count) :
    s.maybeLogLocked =
      ({ s with toStat := (s.toStat.logLocked).1 }, [(s.toStat.logLocked).2]) := by
  unfold FixedCountStat.maybeLogLocked
  rw [if_pos h]

lemma fc_add_no_close (s : FixedCountStat) (v : Int)
    (h : s.toStat.current_.count + 1 < s.windowSize_) :
    s.add v = ({ s with toStat := s.toStat.fold v }, []) := by
  unfold FixedCountStat.add
  rw [fc_maybe_of_lt s (by omega)]
  dsimp only
  rw [fc_maybe_of_lt _ (by dsimp only; rw [fold_count]; omega)]
  rfl

lemma fc_add_last (s : FixedCountStat) (v : Int)
    (h0 : 0 ≤ s.toStat.current_.count)
    (h1 : s.toStat.current_.count + 1 = s.windowSize_) :
    (∃ e, (s.add v).2 = [some e]) ∧
      (s.add v).1.toStat.current_ = ({} : Values) := by
  unfold FixedCountStat.add
  rw [fc_maybe_of_lt s (by omega)]
  dsimp only
  rw [fc_maybe_of_ge _ (by dsimp only; rw [fold_count]; omega)]
  dsimp only
  constructor
  · have hs : (((s.toStat.fold v).logLocked).2).isSome = true :=
      logLocked_snd_isSome _ (by rw [fold_count]; omega)
    rcases Option.isSome_iff_exists.1 hs with ⟨e, he⟩
    exact ⟨e, by rw [he]; rfl⟩
  · rw [logLocked_fst]

lemma fc_run (vs : List Int) : ∀ (s : FixedCountStat), vs ≠ [] →
    0 ≤ s.toStat.current_.count →
    s.toStat.current_.count + (vs.length : Int) = s.windowSize_ →
    (s.addAll vs.dropLast).2 = [] ∧ (∃ e, (s.addAll vs).2 = [some e]) ∧
      (s.addAll vs).1.toStat.current_.count = 0 := by
  induction vs with
  | nil =>
    intro s hne _ _
    exact absurd rfl hne
  | cons v rest ih =>
    intro s _ h0 hlen
    cases rest with
    | nil =>
      have h1 : s.toStat.current_.count + 1 = s.windowSize_ := by
        simp only [List.length_cons, List.length_nil] at hlen
        push_cast at hlen
        omega
      have hl := fc_add_last s v h0 h1
      refine ⟨rfl, ?_, ?_⟩
      · rcases hl.1 with ⟨e, he⟩
        exact ⟨e, by simp [fc_addAll_cons, fc_addAll_nil, he]⟩
      · rw [fc_addAll_cons, fc_addAll_nil]
        dsimp only
        rw [hl.2]
    | cons w rest₂ =>
      have hlt : s.toStat.current_.count + 1 < s.windowSize_ := by
        simp only [List.length_cons] at hlen
        push_cast at hlen
        omega
      have hstep := fc_add_no_close s v hlt
      have hev : (s.add v).2 = [] := by rw [hstep]
      have hcount : ((s.add v).1).toStat.current_.count
          = s.toStat.current_.count + 1 := by
        rw [hstep]
        dsimp only
        rw [fold_count]
      have hws : ((s.add v).1).windowSize_ = s.windowSize_ := by
        rw [hstep]
      have hspec := ih ((s.add v).1) (by simp) (by omega)
        (by
          rw [hcount, hws]
          simp only [List.length_cons] at hlen ⊢
          push_cast at hlen ⊢
          omega)
      refine ⟨?_, ?_, ?_⟩
      · rw [List.dropLast_cons₂, fc_addAll_cons, hev]
        simpa using hspec.1
      · rcases hspec.2.1 with ⟨e, he⟩
        refine ⟨e, ?_⟩
        rw [fc_addAll_cons, hev]
        simpa using he
      · rw [fc_addAll_cons]
        exact hspec.2.2

/-- Claim C1: for a `FixedCountStat` with threshold `N ≥ 1`, every sequence
of exactly `N` add calls starting from a fresh (just-reset) current window
performs exactly one window close, triggered by the `N`-th add itself (the
first `N-1` adds perform none), that close emits exactly one event (the
window is non-empty), and afterwards the current window's `count()` is 0. -/
theorem C1_fixed_count_exactly_one_close (N : Nat) (hN : 1 ≤ N)
    (vs : List Int) (hlen : vs.length = N) (nm : String) (bits : Nat) (p : Values) :
    ((FixedCountStat.addAll
        { name_ := nm, aggregations_ := bits, prev_ := p, windowSize_ := (N : Int) }
        vs.dropLast).2 = []) ∧
      (∃ e, (FixedCountStat.addAll
        { name_ := nm, aggregations_ := bits, prev_ := p, windowSize_ := (N : Int) }
        vs).2 = [some e]) ∧
      (FixedCountStat.addAll
        { name_ := nm, aggregations_ := bits, prev_ := p, windowSize_ := (N : Int) }
        vs).1.toStat.count = 0 := by
  refine fc_run vs _ ?_ ?_ ?_
  · intro h
    rw [h] at hlen
    simp at hlen
    omega
  · exact le_refl (0 : Int)
  · show (0 : Int) + (vs.length : Int) = (N : Int)
    rw [hlen]
    exact zero_add _

def fcC1 : FixedCountStat :=
  { name_ := "x", aggregations_ := merge [.COUNT], prev_ := {},
    windowSize_ := ((2 : Nat) : Int) }

theorem C1_witness :
    (∃ e, (FixedCountStat.addAll fcC1 [3, 4]).2 = [some e]) ∧
      (FixedCountStat.addAll fcC1 [3, 4]).1.toStat.count = 0 := by
  have h := C1_fixed_count_exactly_one_close 2 (by decide) [3, 4] (by decide)
    "x" (merge [.COUNT]) {}
  exact ⟨h.2.1, h.2.2⟩

lemma fc_add_events_nil (s : FixedCountStat) (v : Int) (h : (s.add v).2 = []) :
    (s.add v).1 = { s with toStat := s.toStat.fold v } := by
  by_cases h₁ : s.windowSize_ ≤ s.toStat.current_.count
  · exfalso
    unfold FixedCountStat.add at h
    rw [fc_maybe_of_ge s h₁] at h
    simp at h
  · by_cases h₂ : s.windowSize_ ≤ s.toStat.current_.count + 1
    · exfalso
      unfold FixedCountStat.add at h
      rw [fc_maybe_of_lt s (by omega)] at h
      dsimp only at h
      rw [fc_maybe_of_ge _ (by dsimp only; rw [fold_count]; omega)] at h
      simp at h
    · rw [fc_add_no_close s v (by omega)]

lemma fc_addAll_nil_count (vs : List Int) : ∀ (s : FixedCountStat),
    (s.addAll vs).2 = [] →
    (s.addAll vs).1.toStat.current_.count
      = s.toStat.current_.count + (vs.length : Int) := by
  induction vs with
  | nil =>
    intro s _
    simp [fc_addAll_nil]
  | cons v rest ih =>
    intro s h
    rw [fc_addAll_cons] at h
    simp only [List.append_eq_nil] at h
    have hstate := fc_add_events_nil s v h.1
    have hrest := ih ((s.add v).1) h.2
    rw [fc_addAll_cons]
    dsimp only
    rw [hrest, hstate]
    dsimp only
    rw [fold_count]
    simp only [List.length_cons]
    push_cast
    ring

/-- Claim C8: each `add` increments the current window's count by exactly 1,
regardless of which aggregations are selected; hence for every sequence of
add calls during which no window close is triggered, `count()` returns
exactly the number of add calls made since the last close (`count()` itself
is a pure read of the locked state and changes no window state). -/
theorem C8_count_tracks_adds :
    (∀ (s : Stat) (v : Int), (s.fold v).count = s.count + 1) ∧
      (∀ (s : FixedCountStat) (vs : List Int), (s.addAll vs).2 = [] →
        (s.addAll vs).1.toStat.count = s.toStat.count + (vs.length : Int)) :=
  ⟨fun s v => fold_count s v, fun s vs h => fc_addAll_nil_count vs s h⟩

def fcSample : FixedCountStat :=
  { name_ := "w", aggregations_ := merge [.COUNT], windowSize_ := 10 }

theorem C8_witness :
    (fcSample.addAll [1, 2]).2 = [] ∧
      (fcSample.addAll [1, 2]).1.toStat.count
        = fcSample.toStat.count + (([1, 2] : List Int).length : Int) :=
  ⟨by decide, C8_count_tracks_adds.2 fcSample [1, 2] (by decide)⟩

end TorchMonitor
namespace TorchMonitor

lemma iv_maybe_of_eq (s : IntervalStat) (now : Nat)
    (h : s.windowId_ = s.currentWindowId now) :
    s.maybeLogLocked now = (s, []) := by
  unfold IntervalStat.maybeLogLocked
  dsimp only
  rw [if_neg (by simpa using h)]

lemma iv_maybe_of_ne (s : IntervalStat) (now : Nat)
    (h : s.windowId_ ≠ s.currentWindowId now) :
    s.maybeLogLocked now =
      ({ s with
          toStat := (s.toStat.logLocked).1
          windowId_ := s.currentWindowId now }, [(s.toStat.logLocked).2]) := by
  unfold IntervalStat.maybeLogLocked
  dsimp only
  rw [if_pos (by simpa using h)]

lemma iv_add_of_eq (s : IntervalStat) (v : Int) (now : Nat)
    (h : s.windowId_ = s.currentWindowId now) :
    s.add v now = ({ s with toStat := s.toStat.fold v }, []) := by
  unfold IntervalStat.add
  rw [iv_maybe_of_eq s now h]
  dsimp only
  rw [iv_maybe_of_eq _ now (by exact h)]
  rfl

lemma iv_add_of_ne (s : IntervalStat) (v : Int) (now : Nat)
    (h : s.windowId_ ≠ s.currentWindowId now) :
    s.add v now =
      ({ s with
          toStat := ((s.toStat.logLocked).1).fold v
          windowId_ := s.currentWindowId now }, [(s.toStat.logLocked).2]) := by
  unfold IntervalStat.add
  rw [iv_maybe_of_ne s now h]
  dsimp only
  rw [iv_maybe_of_eq _ now rfl]
  rfl

lemma iv_add_windowId (s : IntervalStat) (v : Int) (now : Nat) :
    (s.add v now).1.windowId_ = s.currentWindowId now ∧
      (s.add v now).1.windowSize_ = s.windowSize_ := by
  by_cases h : s.windowId_ = s.currentWindowId now
  · rw [iv_add_of_eq s v now h]
    exact ⟨h, rfl⟩
  · rw [iv_add_of_ne s v now h]
    exact ⟨rfl, rfl⟩

/-- Claim C5: for an `IntervalStat`, after any add call the stored bucket id
equals that call's computed bucket id (monotonic time divided by the window
size); a subsequent add whose bucket id is equal triggers no close between
the two calls, and a subsequent add whose bucket id differs triggers exactly
one close, regardless of how many buckets elapsed unobserved (no synthetic
empty windows for skipped buckets). -/
theorem C5_interval_bucket_closes (s : IntervalStat) (v₁ v₂ : Int)
    (now₁ now₂ : Nat) :
    ((s.add v₁ now₁).1.windowId_ = s.currentWindowId now₁) ∧
      (s.currentWindowId now₂ = s.currentWindowId now₁ →
        (((s.add v₁ now₁).1).add v₂ now₂).2 = []) ∧
      (s.currentWindowId now₂ ≠ s.currentWindowId now₁ →
        ((((s.add v₁ now₁).1).add v₂ now₂).2).length = 1) := by
  have hid := iv_add_windowId s v₁ now₁
  have hcw : ∀ n : Nat, ((s.add v₁ now₁).1).currentWindowId n = s.currentWindowId n := by
    intro n
    unfold IntervalStat.currentWindowId
    rw [hid.2]
  refine ⟨hid.1, ?_, ?_⟩
  · intro heq
    rw [iv_add_of_eq _ v₂ now₂ (by rw [hcw, heq, ← hid.1])]
  · intro hne
    rw [iv_add_of_ne _ v₂ now₂ (by rw [hcw, hid.1]; exact fun hh => hne hh.symm)]
    rfl

def ivSample : IntervalStat :=
  { name_ := "iv", aggregations_ := merge [.MAX, .MIN], windowSize_ := 10 }

theorem C5_witness :
    (((ivSample.add 5 3).1).add (-2) 7).2 = [] ∧
      ((((ivSample.add 5 3).1).add 9 25).2).length = 1 := by
  have h₁ := (C5_interval_bucket_closes ivSample 5 (-2) 3 7).2.1 (by decide)
  have h₂ := (C5_interval_bucket_closes ivSample 5 9 3 25).2.2 (by decide)
  exact ⟨h₁, h₂⟩

end TorchMonitor
namespace TorchMonitor

lemma toBit_inj (a b : Aggregation) (h : a.toBit = b.toBit) : a = b := by
  cases a <;> cases b <;> simp_all [Aggregation.toBit]

lemma testBit_merge_foldl (l : List Aggregation) : ∀ (m i : Nat),
    (l.foldl (fun a b => a ||| (1 <<< b.toBit)) m).testBit i
      = (m.testBit i || l.any fun b => decide (b.toBit = i)) := by
  induction l with
  | nil =>
    intro m i
    simp
  | cons b t ih =>
    intro m i
    show (t.foldl _ (m ||| (1 <<< b.toBit))).testBit i = _
    rw [ih]
    simp [Nat.testBit_or, Nat.one_shiftLeft, Nat.testBit_two_pow, Bool.or_assoc]

lemma testAgg_merge (l : List Aggregation) (a : Aggregation) :
    testAgg (merge l) a = true ↔ a ∈ l := by
  unfold testAgg merge
  rw [testBit_merge_foldl]
  simp only [Nat.zero_testBit, Bool.false_or, List.any_eq_true, decide_eq_true_eq]
  constructor
  · rintro ⟨b, hb, he⟩
    rwa [toBit_inj b a he] at hb
  · intro h
    exact ⟨a, h, rfl⟩

lemma stat_aggs_fold (s : Stat) (v : Int) :
    (s.fold v).aggregations_ = s.aggregations_ :=
  (fold_meta s v).2.1

lemma stat_aggs_log (s : Stat) :
    ((s.logLocked).1).aggregations_ = s.aggregations_ := by
  rw [logLocked_fst]

/-- Claim C9: the aggregation bitset built by `merge` at construction is
insensitive to duplicates and ordering — any two lists with the same
members yield the same membership function — membership testing is a pure
query, and the set attached to a Stat is never changed by `fold`,
`logLocked`, or either policy's `add`. -/
theorem C9_aggregation_set_semantics :
    (∀ (l₁ l₂ : List Aggregation), (∀ a, a ∈ l₁ ↔ a ∈ l₂) →
        ∀ a, testAgg (merge l₁) a = testAgg (merge l₂) a) ∧
      (∀ (s : Stat) (v : Int), (s.fold v).aggregations_ = s.aggregations_) ∧
      (∀ (s : Stat), ((s.logLocked).1).aggregations_ = s.aggregations_) ∧
      (∀ (s : FixedCountStat) (v : Int),
        (((s.add v).1).toStat).aggregations_ = s.toStat.aggregations_) ∧
      (∀ (s : IntervalStat) (v : Int) (now : Nat),
        (((s.add v now).1).toStat).aggregations_ = s.toStat.aggregations_) := by
  refine ⟨?_, stat_aggs_fold, stat_aggs_log, ?_, ?_⟩
  · intro l₁ l₂ hm a
    cases hb₁ : testAgg (merge l₁) a <;> cases hb₂ : testAgg (merge l₂) a
    · rfl
    · exact absurd ((testAgg_merge l₁ a).2 ((hm a).2 ((testAgg_merge l₂ a).1 hb₂)))
        (by simp [hb₁])
    · exact absurd ((testAgg_merge l₂ a).2 ((hm a).1 ((testAgg_merge l₁ a).1 hb₁)))
        (by simp [hb₂])
    · rfl
  · intro s v
    unfold FixedCountStat.add FixedCountStat.maybeLogLocked
    dsimp only
    split_ifs <;> simp [stat_aggs_fold, stat_aggs_log]
  · intro s v now
    unfold IntervalStat.add IntervalStat.maybeLogLocked
    dsimp only
    split_ifs <;> simp [stat_aggs_fold, stat_aggs_log]

theorem C9_witness :
    testAgg (merge [Aggregation.SUM, Aggregation.SUM, Aggregation.MEAN]) Aggregation.SUM
      = testAgg (merge [Aggregation.MEAN, Aggregation.SUM]) Aggregation.SUM :=
  C9_aggregation_set_semantics.1 [Aggregation.SUM, Aggregation.SUM, Aggregation.MEAN]
    [Aggregation.MEAN, Aggregation.SUM] (by intro a; cases a <;> simp) Aggregation.SUM

def sMean : Stat :=
  { name_ := "m", aggregations_ := merge [.MEAN], prev_ := { sum := 60, count := 3 } }

def sMeanZero : Stat :=
  { name_ := "m0", aggregations_ := merge [.MEAN] }

theorem C3_witness :
    (sMean.getLocked).lookup .MEAN = some 20 ∧
      (sMeanZero.getLocked).lookup .MEAN = some 0 := by
  have h₁ := (C3_mean_finalization sMean (by decide)).2 (by decide)
  have h₂ := (C3_mean_finalization sMeanZero (by decide)).1 (by decide)
  exact ⟨h₁, h₂⟩

def sMM : Stat :=
  { name_ := "mm", aggregations_ := merge [.MAX, .MIN] }

theorem C4_witness :
    (sMM.fold (-5)).current_.max = -5 ∧ (sMM.fold (-5)).current_.min = -5 :=
  C4_first_observation_seeds_extrema sMM (-5) (by decide) (by decide) (by decide)

def sPos : Stat :=
  { name_ := "p", aggregations_ := merge [.COUNT], current_ := { count := 2 } }

def sZero : Stat :=
  { name_ := "z", aggregations_ := merge [.COUNT] }

theorem C6_witness :
    (sPos.destructor).isSome = true ∧ (sZero.destructor).isSome = false := by
  constructor
  · exact (C6_close_emits_iff_nonempty sPos (by decide)).1.mpr (by decide)
  · cases hv : (sZero.destructor).isSome
    · rfl
    · exact absurd ((C6_close_emits_iff_nonempty sZero (by decide)).1.mp (by rw [hv]))
        (by decide)

def sEmptyClose : Stat :=
  { name_ := "e", aggregations_ := merge [.SUM], prev_ := { sum := 99, count := 7 } }

theorem C10_witness :
    (sEmptyClose.logLocked).2 = none ∧
      (sEmptyClose.logLocked).1.get = [(Aggregation.SUM, 0)] := by
  have h := C10_empty_close sEmptyClose rfl
  refine ⟨h.1, ?_⟩
  rw [h.2.2.2]
  decide

end TorchMonitor
namespace TorchMonitor

/-- The end-to-end example stat: name `"latency"`, aggregations
{SUM, COUNT, MEAN}, fixed-count policy with threshold 3. -/
def latencyStat : FixedCountStat :=
  { name_ := "latency", aggregations_ := merge [.SUM, .COUNT, .MEAN],
    windowSize_ := 3 }

/-- Claim C7: for a Stat named `"latency"` with aggregations
{SUM, COUNT, MEAN} under a fixed-count policy with `N = 3`, the sequence
`add 10, add 20, add 30` performs exactly one close emitting exactly one
event, whose type is `"torch.monitor.Stat"` and message `"latency"`, whose
metadata has exactly the three entries `latency.sum = 60`,
`latency.count = 3`, `latency.mean = 20`; and `get()` returns exactly
`SUM = 60, COUNT = 3, MEAN = 20`, unchanged by further adds until the next
window close. -/
theorem C7_latency_example :
    ((latencyStat.addAll [10, 20, 30]).2).length = 1 ∧
      (((latencyStat.addAll [10, 20, 30]).2).filterMap id).map Event.type
        = ["torch.monitor.Stat"] ∧
      (((latencyStat.addAll [10, 20, 30]).2).filterMap id).map Event.message
        = ["latency"] ∧
      (((latencyStat.addAll [10, 20, 30]).2).filterMap id).map
          (fun e => e.metadata.length) = [3] ∧
      (((latencyStat.addAll [10, 20, 30]).2).filterMap id).map
          (fun e => e.metadata.lookup "latency.sum") = [some 60] ∧
      (((latencyStat.addAll [10, 20, 30]).2).filterMap id).map
          (fun e => e.metadata.lookup "latency.count") = [some 3] ∧
      (((latencyStat.addAll [10, 20, 30]).2).filterMap id).map
          (fun e => e.metadata.lookup "latency.mean") = [some 20] ∧
      ((latencyStat.addAll [10, 20, 30]).1.toStat.get).length = 3 ∧
      ((latencyStat.addAll [10, 20, 30]).1.toStat.get).lookup .SUM = some 60 ∧
      ((latencyStat.addAll [10, 20, 30]).1.toStat.get).lookup .COUNT = some 3 ∧
      ((latencyStat.addAll [10, 20, 30]).1.toStat.get).lookup .MEAN = some 20 ∧
      (latencyStat.addAll [10, 20, 30, 7]).2 = (latencyStat.addAll [10, 20, 30]).2 ∧
      (latencyStat.addAll [10, 20, 30, 7]).1.toStat.get
        = (latencyStat.addAll [10, 20, 30]).1.toStat.get ∧
      (latencyStat.addAll [10, 20, 30, 7, 8]).2
        = (latencyStat.addAll [10, 20, 30]).2 ∧
      (latencyStat.addAll [10, 20, 30, 7, 8]).1.toStat.get
        = (latencyStat.addAll [10, 20, 30]).1.toStat.get := by
  decide

end TorchMonitor
